import Mathlib

/-!
Verification of `webfish.py`: a Flask service exposing `POST /analyze`, which
expands a PGN chess game into FEN positions, queries a Stockfish engine for the
top moves of each position, persists the result as a pretty-printed JSON file
and returns it.

The development shallowly embeds the module:

* `J` models Python/JSON values as produced by `request.json` and consumed by
  `json.dump` (numbers restricted to integers, which is all the service's data
  model contains; Python `bool` is a subtype of `int`, which `isinstance_int`
  reflects).
* `GameNode` models the game tree returned by the external parser
  `chess.pgn.read_game`: each node carries its board's FEN rendering and the
  list of child variations.  The parser itself is a parameter (`read_game`).
* `pgn_to_fen_list`, `save_analysis_to_file` and `analyze_pgn` are translated
  line by line from `webfish.py`; `analyze_pgn` additionally returns the list
  of external `Event`s it performed (engine calls, expander invocation, file
  write), in order, so that ordering claims can be stated.
* `dumps`/`loads` model Python's `json.dump(data, f, indent=4)` (with its
  default `ensure_ascii=True` escaping, including UTF-16 surrogate pairs for
  astral characters) and `json.load`; the round-trip theorem is proved for
  every `J` value.  Strings are modelled as sequences of Unicode scalar
  values (Lean `Char`), so lone surrogates — unrepresentable in `Char` — are
  outside the model.
-/

/-- Python/JSON values (`request.json` results and `json.dump` inputs).
Numbers are restricted to integers, which is all `webfish.py`'s data contains. -/
inductive J where
  | null : J
  | bool (b : Bool) : J
  | int (n : Int) : J
  | str (s : String) : J
  | arr (xs : List J) : J
  | obj (kvs : List (String × J)) : J

/-- Python `isinstance(v, int)`: true for `int` and also for `bool`, since
Python's `bool` is a subclass of `int`. -/
def isinstance_int : J → Bool
  | J.int _ => true
  | J.bool _ => true
  | _ => false

/-- The integer value a Python `int`-instance carries (`True` is `1`, `False` is `0`). -/
def pyIntVal : J → Int
  | J.int n => n
  | J.bool b => if b then 1 else 0
  | _ => 0

/-- Whether a JSON value is an integer in the JSON sense (the spec's notion of
"integer"): only actual numbers count, not booleans. -/
def jsonIsInt : J → Bool
  | J.int _ => true
  | _ => false

/-- Python dict lookup `d.get(key)` on an association list. -/
def dictGet : List (String × J) → String → Option J
  | [], _ => none
  | (k, v) :: rest, key => if k = key then some v else dictGet rest key

/-- Top-level field names of a JSON object (used to state which fields a
record does and does not contain). -/
def jKeys : J → List String
  | J.obj kvs => kvs.map (fun kv => kv.1)
  | _ => []

/-- A node of the game tree returned by `chess.pgn.read_game`: `fen` is the
FEN rendering of this node's board (`node.board().fen()` in the source) and
`variations` its child variations, principal variation first. -/
inductive GameNode where
  | node (fen : String) (variations : List GameNode) : GameNode

/-- FEN of a game tree's root board. -/
def rootFen : GameNode → String
  | GameNode.node fen _ => fen

/-- Number of moves on the game's main line: the length of the first-child
chain from the root. -/
def mainlineMoves : GameNode → Nat
  | GameNode.node _ [] => 0
  | GameNode.node _ (v :: _) => 1 + mainlineMoves v
decreasing_by simp; omega

/-- The walk of `pgn_to_fen_list` (lines 58-64 of `webfish.py`): starting at
the root, while the current node has variations, record the current node's FEN
and step to the first variation.  The position after the final move is never
recorded, and a move-less game records nothing. -/
def walkFens : GameNode → List String
  | GameNode.node _ [] => []
  | GameNode.node fen (v :: _) => fen :: walkFens v
decreasing_by simp; omega

/-- Lines 52-67 of `webfish.py`.  `read_game` is the external PGN parser
`chess.pgn.read_game`; its returning `none` models a `None` result, on which
the source raises `ValueError`, caught by the surrounding `except`, which
returns `[]`.  A non-string argument makes `StringIO(pgn)` raise `TypeError`,
likewise caught and collapsed to `[]`. -/
def pgn_to_fen_list (read_game : String → Option GameNode) : J → List String
  | J.str s =>
    match read_game s with
    | none => []
    | some game => walkFens game
  | _ => []

/-- Maximum (and default) analysis depth, line 17 of `webfish.py`. -/
def MAX_DEPTH : Int := 15

/-- Folder that stores analysis results, line 16 of `webfish.py`. -/
def ANALYSES_FOLDER : String := "analyses"

/-- External environment of one request: the PGN parser, the engine's answer
to `get_top_moves(3)` (as a function of the configured depth value and the
current FEN), the timestamp and uuid generated by `save_analysis_to_file`,
and whether the file write succeeds. -/
structure Env where
  read_game : String → Option GameNode
  get_top_moves : J → String → List J
  timestamp : String
  unique_id : String
  writeOk : Bool

/-- The file path `save_analysis_to_file` builds:
`os.path.join(ANALYSES_FOLDER, f"(timestamp)_(unique_id).json")`. -/
def savePath (env : Env) : String :=
  ANALYSES_FOLDER ++ "/" ++ env.timestamp ++ "_" ++ env.unique_id ++ ".json"

/-- Lines 71-83 of `webfish.py`: returns the storage path on a successful
write and `None` when the write raises (disk full, permission error, ...). -/
def save_analysis_to_file (env : Env) : Option String :=
  if env.writeOk then some (savePath env) else none

/-- External actions `analyze_pgn` performs, in order: engine configuration
and queries, the invocation of the Game Expander, and the result file write. -/
inductive Event where
  | setDepth (value : J) : Event
  | expandPgn (pgn : J) : Event
  | setFenPosition (fen : String) : Event
  | getTopMoves (n : Nat) : Event
  | writeFile (path : String) (contents : List Char) : Event

/-- An HTTP response: `ok body` is a 200 with a JSON body, `err code msg` is
`jsonify({"error": msg}), code`. -/
inductive Resp where
  | ok (body : J) : Resp
  | err (code : Nat) (msg : String) : Resp

/-- HTTP status code of a response. -/
def Resp.code : Resp → Nat
  | Resp.ok _ => 200
  | Resp.err c _ => c

/-- Left brace character, written numerically. -/
def lbrace : Char := Char.ofNat 123

/-- Right brace character, written numerically. -/
def rbrace : Char := Char.ofNat 125

/-- A run of spaces. -/
def spaces : Nat → List Char
  | 0 => []
  | n + 1 => ' ' :: spaces n

/-- Newline followed by the indentation of nesting level `k` (Python
`json.dump` with `indent=4`). -/
def nlIndent (k : Nat) : List Char := '\n' :: spaces (4 * k)

/-- Decimal digit character. -/
def decDigit (n : Nat) : Char := Char.ofNat (48 + n)

/-- Lowercase hexadecimal digit character, as Python's `\uXXXX` escapes use. -/
def hexDigitChar (n : Nat) : Char :=
  if n < 10 then Char.ofNat (48 + n) else Char.ofNat (87 + n)

/-- The escape `\uXXXX` for a code unit `n < 0x10000`. -/
def uEsc (n : Nat) : List Char :=
  ['\\', 'u', hexDigitChar (n / 4096 % 16), hexDigitChar (n / 256 % 16),
   hexDigitChar (n / 16 % 16), hexDigitChar (n % 16)]

/-- Python `json.dump`'s escaping of one character under its default
`ensure_ascii=True`: short escapes for the quote, the backslash and the named control
characters, `\uXXXX` for other control or non-ASCII characters, and a UTF-16
surrogate pair of escapes for astral characters. -/
def escChar (c : Char) : List Char :=
  if c = '"' then ['\\', '"']
  else if c = '\\' then ['\\', '\\']
  else if c.toNat = 8 then ['\\', 'b']
  else if c.toNat = 9 then ['\\', 't']
  else if c.toNat = 10 then ['\\', 'n']
  else if c.toNat = 12 then ['\\', 'f']
  else if c.toNat = 13 then ['\\', 'r']
  else if c.toNat < 32 then uEsc c.toNat
  else if c.toNat ≤ 126 then [c]
  else if c.toNat < 65536 then uEsc c.toNat
  else uEsc (55296 + (c.toNat - 65536) / 1024) ++ uEsc (56320 + (c.toNat - 65536) % 1024)

/-- Escape every character of a string's contents. -/
def escString (s : List Char) : List Char := (s.map escChar).flatten

/-- A JSON string literal: quote, escaped contents, quote. -/
def dumpStr (s : String) : List Char := '"' :: (escString s.data ++ ['"'])

/-- Decimal digits of a natural number, most significant first. -/
def natDigits (n : Nat) : List Char :=
  if n < 10 then [decDigit n] else natDigits (n / 10) ++ [decDigit (n % 10)]
decreasing_by omega

/-- Python's rendering of an integer. -/
def dumpInt : Int → List Char
  | Int.ofNat n => natDigits n
  | Int.negSucc m => '-' :: natDigits (m + 1)

mutual

/-- Python `json.dump(v, f, indent=4)` at nesting level `k`. -/
def dumpVal : J → Nat → List Char
  | J.null, _ => ['n', 'u', 'l', 'l']
  | J.bool true, _ => ['t', 'r', 'u', 'e']
  | J.bool false, _ => ['f', 'a', 'l', 's', 'e']
  | J.int n, _ => dumpInt n
  | J.str s, _ => dumpStr s
  | J.arr xs, k => '[' :: dumpArrBody xs k
  | J.obj kvs, k => lbrace :: dumpObjBody kvs k

/-- What follows the opening bracket of an array at nesting level `k`:
`[]` for an empty array, otherwise each element on its own indented line. -/
def dumpArrBody : List J → Nat → List Char
  | [], _ => [']']
  | x :: xs, k =>
    nlIndent (k + 1) ++ dumpVal x (k + 1) ++ dumpArrTail xs (k + 1) ++ nlIndent k ++ [']']

/-- The remaining elements of a non-empty array, each preceded by a comma and
an indented newline. -/
def dumpArrTail : List J → Nat → List Char
  | [], _ => []
  | x :: xs, k => ',' :: (nlIndent k ++ dumpVal x k) ++ dumpArrTail xs k

/-- What follows the opening brace of an object at nesting level `k`. -/
def dumpObjBody : List (String × J) → Nat → List Char
  | [], _ => [rbrace]
  | (key, v) :: kvs, k =>
    nlIndent (k + 1) ++ dumpStr key ++ (':' :: ' ' :: dumpVal v (k + 1)) ++
      dumpObjTail kvs (k + 1) ++ nlIndent k ++ [rbrace]

/-- The remaining members of a non-empty object. -/
def dumpObjTail : List (String × J) → Nat → List Char
  | [], _ => []
  | (key, v) :: kvs, k =>
    ',' :: (nlIndent k ++ dumpStr key ++ (':' :: ' ' :: dumpVal v k)) ++ dumpObjTail kvs k

end

/-- The exact character stream `json.dump(j, f, indent=4)` writes. -/
def dumps (j : J) : List Char := dumpVal j 0

/-- The per-position loop result, lines 117-124 of `webfish.py`: for each FEN
(in order) an object holding the FEN and the `get_top_moves(3)` answer. -/
def positionsOf (env : Env) (depth : J) (fens : List String) : List J :=
  fens.map (fun fen =>
    J.obj [("fen", J.str fen), ("best_moves", J.arr (env.get_top_moves depth fen))])

/-- The `analysis_data` dict built on line 136 of `webfish.py`. -/
def analysisRecord (env : Env) (depth : J) (pgn : J) (fens : List String) : J :=
  J.obj [("pgn", pgn), ("depth", depth), ("positions", J.arr (positionsOf env depth fens))]

/-- The engine events of the per-position loop, in order: for each FEN a
`set_fen_position` then a `get_top_moves(3)`. -/
def loopEvents (fens : List String) : List Event :=
  (fens.map (fun fen => [Event.setFenPosition fen, Event.getTopMoves 3])).flatten

/-- The `/analyze` view, lines 88-147 of `webfish.py`.  `engineUp` is whether
the module-level `stockfish` handle was initialized (it is assigned once at
startup and never reassigned, so one value covers the process lifetime).
`body` is `request.json`, restricted to the shapes the endpoint distinguishes:
`none` for a JSON `null` body, otherwise a JSON object.  The result pairs the
ordered list of external events performed with the HTTP response. -/
def analyze_pgn (env : Env) (engineUp : Bool)
    (body : Option (List (String × J))) : List Event × Resp :=
  if engineUp = false then
    ([], Resp.err 500 "Stockfish engine is not initialized.")
  else
    match body with
    | none => ([], Resp.err 400 "Invalid request: \x27pgn\x27 field is required.")
    | some data =>
      if data.isEmpty || (dictGet data "pgn").isNone then
        ([], Resp.err 400 "Invalid request: \x27pgn\x27 field is required.")
      else
        let pgn := (dictGet data "pgn").getD J.null
        let depth := (dictGet data "depth").getD (J.int MAX_DEPTH)
        if isinstance_int depth = false ∨ pyIntVal depth ≤ 0 then
          ([], Resp.err 400 "Invalid \x27depth\x27 value. It must be a positive integer.")
        else
          let fens := pgn_to_fen_list env.read_game pgn
          let ev := [Event.setDepth depth, Event.expandPgn pgn]
          if fens.isEmpty then
            (ev, Resp.err 400 "No valid positions found in PGN.")
          else
            let evLoop := loopEvents fens
            let analysis_data := analysisRecord env depth pgn fens
            match save_analysis_to_file env with
            | none => (ev ++ evLoop, Resp.err 500 "Failed to save analysis results.")
            | some path =>
              (ev ++ evLoop ++ [Event.writeFile path (dumps analysis_data)],
               Resp.ok (J.obj [("status", J.str "success"), ("analysis", analysis_data)]))

/-- Whitespace characters `json.load` skips between tokens. -/
def isWs (c : Char) : Bool := c = ' ' ∨ c = '\t' ∨ c = '\n' ∨ c = '\x0d'

/-- Skip leading whitespace. -/
def skipWs : List Char → List Char
  | [] => []
  | c :: cs => if isWs c then skipWs cs else c :: cs

/-- Value of one hexadecimal digit character. -/
def hexVal (c : Char) : Option Nat :=
  if 48 ≤ c.toNat ∧ c.toNat ≤ 57 then some (c.toNat - 48)
  else if 97 ≤ c.toNat ∧ c.toNat ≤ 102 then some (c.toNat - 87)
  else if 65 ≤ c.toNat ∧ c.toNat ≤ 70 then some (c.toNat - 55)
  else none

/-- Parse exactly four hexadecimal digits. -/
def pU4 : List Char → Option (Nat × List Char)
  | a :: b :: c :: d :: rest =>
    match hexVal a, hexVal b, hexVal c, hexVal d with
    | some x, some y, some z, some w => some (4096 * x + 256 * y + 16 * z + w, rest)
    | _, _, _, _ => none
  | _ => none

/-- Parse one escape sequence (the part after the backslash), decoding UTF-16
surrogate pairs the way `json.load` does.  A lone surrogate is rejected: it is
not a Unicode scalar value and has no `Char` representation. -/
def pEsc : List Char → Option (Char × List Char)
  | [] => none
  | c :: rest =>
    if c = '"' then some ('"', rest)
    else if c = '\\' then some ('\\', rest)
    else if c = '/' then some ('/', rest)
    else if c = 'b' then some (Char.ofNat 8, rest)
    else if c = 'f' then some (Char.ofNat 12, rest)
    else if c = 'n' then some ('\n', rest)
    else if c = 'r' then some (Char.ofNat 13, rest)
    else if c = 't' then some (Char.ofNat 9, rest)
    else if c = 'u' then
      match pU4 rest with
      | none => none
      | some (n, rest2) =>
        if n < 55296 ∨ 57344 ≤ n then some (Char.ofNat n, rest2)
        else if n < 56320 then
          match rest2 with
          | c2 :: c3 :: rest3 =>
            if c2 = '\\' ∧ c3 = 'u' then
              match pU4 rest3 with
              | some (m, rest4) =>
                if 56320 ≤ m ∧ m < 57344 then
                  some (Char.ofNat (65536 + (n - 55296) * 1024 + (m - 56320)), rest4)
                else none
              | none => none
            else none
          | _ => none
        else none
    else none

/-- Parse the contents of a string literal after its opening quote, up to and
including the closing quote.  Raw control characters are rejected, as
`json.load`'s default strict mode does.  Fuel decreases once per produced
character; the input length suffices as fuel. -/
def pStrAux : Nat → List Char → Option (List Char × List Char)
  | 0, _ => none
  | fuel + 1, cs =>
    match cs with
    | [] => none
    | c :: rest =>
      if c = '"' then some ([], rest)
      else if c = '\\' then
        match pEsc rest with
        | none => none
        | some (ch, rest2) =>
          match pStrAux fuel rest2 with
          | none => none
          | some (s, r) => some (ch :: s, r)
      else if c.toNat < 32 then none
      else
        match pStrAux fuel rest with
        | none => none
        | some (s, r) => some (c :: s, r)

/-- Read a maximal run of decimal digits into an accumulator. -/
def pDigits : List Char → Nat → Nat × List Char
  | [], acc => (acc, [])
  | c :: cs, acc => if c.isDigit then pDigits cs (10 * acc + (c.toNat - 48)) else (acc, c :: cs)

mutual

/-- Parse one JSON value (integers only among numbers, which is all `dumps`
emits).  Fuel decreases at each nesting or list step. -/
def pVal : Nat → List Char → Option (J × List Char)
  | 0, _ => none
  | fuel + 1, cs =>
    match skipWs cs with
    | [] => none
    | c :: rest =>
      if c = 'n' then
        match rest with
        | 'u' :: 'l' :: 'l' :: r => some (J.null, r)
        | _ => none
      else if c = 't' then
        match rest with
        | 'r' :: 'u' :: 'e' :: r => some (J.bool true, r)
        | _ => none
      else if c = 'f' then
        match rest with
        | 'a' :: 'l' :: 's' :: 'e' :: r => some (J.bool false, r)
        | _ => none
      else if c = '"' then
        match pStrAux (rest.length + 1) rest with
        | none => none
        | some (s, r) => some (J.str (String.mk s), r)
      else if c = '[' then
        match pItems fuel rest with
        | none => none
        | some (vs, r) => some (J.arr vs, r)
      else if c = lbrace then
        match pMembers fuel rest with
        | none => none
        | some (kvs, r) => some (J.obj kvs, r)
      else if c = '-' then
        match rest with
        | d :: _ =>
          if d.isDigit then
            match pDigits rest 0 with
            | (n, r) => some (J.int (-(n : Int)), r)
          else none
        | [] => none
      else if c.isDigit then
        match pDigits (c :: rest) 0 with
        | (n, r) => some (J.int (n : Int), r)
      else none

/-- Parse the elements after an opening bracket. -/
def pItems : Nat → List Char → Option (List J × List Char)
  | 0, _ => none
  | fuel + 1, cs =>
    match skipWs cs with
    | [] => none
    | c :: rest =>
      if c = ']' then some ([], rest)
      else
        match pVal fuel (c :: rest) with
        | none => none
        | some (v, r) =>
          match pItemsTail fuel r with
          | none => none
          | some (vs, r2) => some (v :: vs, r2)

/-- Parse `, value` continuations up to the closing bracket. -/
def pItemsTail : Nat → List Char → Option (List J × List Char)
  | 0, _ => none
  | fuel + 1, cs =>
    match skipWs cs with
    | [] => none
    | c :: rest =>
      if c = ']' then some ([], rest)
      else if c = ',' then
        match pVal fuel rest with
        | none => none
        | some (v, r) =>
          match pItemsTail fuel r with
          | none => none
          | some (vs, r2) => some (v :: vs, r2)
      else none

/-- Parse the members after an opening brace. -/
def pMembers : Nat → List Char → Option (List (String × J) × List Char)
  | 0, _ => none
  | fuel + 1, cs =>
    match skipWs cs with
    | [] => none
    | c :: rest =>
      if c = rbrace then some ([], rest)
      else if c = '"' then
        match pStrAux (rest.length + 1) rest with
        | none => none
        | some (key, r) =>
          match skipWs r with
          | c2 :: r2 =>
            if c2 = ':' then
              match pVal fuel r2 with
              | none => none
              | some (v, r3) =>
                match pMembersTail fuel r3 with
                | none => none
                | some (kvs, r4) => some ((String.mk key, v) :: kvs, r4)
            else none
          | [] => none
      else none

/-- Parse `, "key": value` continuations up to the closing brace. -/
def pMembersTail : Nat → List Char → Option (List (String × J) × List Char)
  | 0, _ => none
  | fuel + 1, cs =>
    match skipWs cs with
    | [] => none
    | c :: rest =>
      if c = rbrace then some ([], rest)
      else if c = ',' then
        match skipWs rest with
        | c2 :: r2 =>
          if c2 = '"' then
            match pStrAux (r2.length + 1) r2 with
            | none => none
            | some (key, r) =>
              match skipWs r with
              | c3 :: r3 =>
                if c3 = ':' then
                  match pVal fuel r3 with
                  | none => none
                  | some (v, r4) =>
                    match pMembersTail fuel r4 with
                    | none => none
                    | some (kvs, r5) => some ((String.mk key, v) :: kvs, r5)
                else none
              | [] => none
          else none
        | [] => none
      else none

end

/-- Python `json.load`: parse one value and require only whitespace after it. -/
def loads (cs : List Char) : Option J :=
  match pVal (cs.length + 1) cs with
  | none => none
  | some (v, rest) => if skipWs rest = [] then some v else none

/-- Input whose head, if any, is not a decimal digit (the boundary condition
after a printed integer). -/
def noDigitHead : List Char → Prop
  | [] => True
  | c :: _ => c.isDigit = false

mutual

/-- Fuel sufficient for `pVal` to parse the printed form of a value. -/
def fuelJ : J → Nat
  | J.arr xs => 2 + fuelL xs
  | J.obj kvs => 2 + fuelM kvs
  | _ => 1

/-- Fuel sufficient for the element list of an array. -/
def fuelL : List J → Nat
  | [] => 0
  | x :: xs => fuelJ x + 1 + fuelL xs

/-- Fuel sufficient for the member list of an object. -/
def fuelM : List (String × J) → Nat
  | [] => 0
  | (_, v) :: kvs => fuelJ v + 1 + fuelM kvs

end

/-- FEN of the standard starting position (what `board().fen()` of a fresh
game's root returns). -/
def fen0 : String := "rnbqkbnr/pppppppp/8/8/8/8/PPPPPPPP/RNBQKBNR w KQkq - 0 1"

/-- FEN after 1. e4. -/
def fen1 : String := "rnbqkbnr/pppppppp/8/8/4P3/8/PPPP1PPP/RNBQKBNR b KQkq e3 0 1"

/-- Game tree of the one-move game `1. e4`: root before the move, one child
after it. -/
def gameE4 : GameNode := GameNode.node fen0 [GameNode.node fen1 []]

/-- Game tree of a zero-move game: a bare root with no variations, as
`chess.pgn.read_game` returns for a PGN with headers or result only. -/
def gameEmpty : GameNode := GameNode.node fen0 []

/-- A concrete PGN parser covering the sample inputs: the one-move game
`"1. e4"`, the zero-move game `"*"`, and `None` for everything else. -/
def read_gameEx (s : String) : Option GameNode :=
  if s = "1. e4" then some gameE4
  else if s = "*" then some gameEmpty
  else none

/-- A concrete engine answer to `get_top_moves(3)`: one ranked move with the
metadata fields the Stockfish wrapper returns. -/
def topMovesEx (_ : J) (_ : String) : List J :=
  [J.obj [("Move", J.str "e7e5"), ("Centipawn", J.int (-30)), ("Mate", J.null)]]

/-- Concrete environment with a working persistence layer. -/
def envEx : Env := Env.mk read_gameEx topMovesEx "20240922_120000" "0a1b2c" true

/-- Concrete environment whose file write fails. -/
def envExNoWrite : Env := Env.mk read_gameEx topMovesEx "20240922_120000" "0a1b2c" false

/-- The analysis record the successful sample run produces. -/
def recEx : J :=
  J.obj [("pgn", J.str "1. e4"), ("depth", J.int 15),
    ("positions", J.arr [J.obj [("fen", J.str fen0),
      ("best_moves", J.arr [J.obj [("Move", J.str "e7e5"),
        ("Centipawn", J.int (-30)), ("Mate", J.null)]])]])]


/-- Every `Char` is a Unicode scalar value: below the surrogate range or
between it and `0x110000`. -/
theorem char_toNat_bounds (c : Char) :
    c.toNat < 55296 ∨ (57343 < c.toNat ∧ c.toNat < 1114112) := by
  rcases c.valid with h | ⟨h1, h2⟩
  · left
    simpa [Char.toNat, UInt32.lt_def, BitVec.lt_def] using h
  · right
    refine ⟨?_, ?_⟩
    · simpa [Char.toNat, UInt32.lt_def, BitVec.lt_def] using h1
    · simpa [Char.toNat, UInt32.lt_def, BitVec.lt_def] using h2

/-- Converting a valid code point to a character keeps its value. -/
theorem toNat_ofNat_valid (n : Nat) (h : n.isValidChar) : (Char.ofNat n).toNat = n := by
  rw [Char.ofNat, dif_pos h]
  rfl

/-- Below the surrogate range every code point is valid. -/
theorem isValidChar_of_lt (n : Nat) (h : n < 55296) : n.isValidChar := Or.inl h

/-- Characters are equal iff their code points are. -/
theorem char_eq_iff_toNat (c d : Char) : c = d ↔ c.toNat = d.toNat := by
  constructor
  · intro h
    rw [h]
  · intro h
    apply Char.eq_of_val_eq
    exact UInt32.toNat.inj h

/-- A character is a digit iff its code point lies in the decimal range. -/
theorem isDigit_iff_toNat (c : Char) : c.isDigit = true ↔ (48 ≤ c.toNat ∧ c.toNat ≤ 57) := by
  simp only [Char.isDigit, UInt32.le_def, BitVec.le_def, Bool.and_eq_true, decide_eq_true_eq]
  exact Iff.rfl

/-- Skipping whitespace passes over a whitespace head. -/
theorem skipWs_cons_ws {c : Char} (cs : List Char) (h : isWs c = true) :
    skipWs (c :: cs) = skipWs cs := by
  simp [skipWs, h]

/-- Skipping whitespace stops at a non-whitespace head. -/
theorem skipWs_cons_not {c : Char} (cs : List Char) (h : isWs c = false) :
    skipWs (c :: cs) = c :: cs := by
  simp [skipWs, h]

/-- Spaces in front are skipped. -/
theorem skipWs_spaces (n : Nat) (cs : List Char) : skipWs (spaces n ++ cs) = skipWs cs := by
  induction n with
  | zero => simp [spaces]
  | succ m ih =>
    have hws : isWs ' ' = true := by decide
    simpa [spaces, skipWs_cons_ws _ hws] using ih

/-- A newline-plus-indentation block in front is skipped. -/
theorem skipWs_nlIndent (k : Nat) (cs : List Char) : skipWs (nlIndent k ++ cs) = skipWs cs := by
  have hws : isWs '\n' = true := by decide
  simp [nlIndent, skipWs_cons_ws _ hws, skipWs_spaces]

/-- Code point of a decimal digit character. -/
theorem decDigit_toNat (n : Nat) (h : n < 10) : (decDigit n).toNat = 48 + n := by
  exact toNat_ofNat_valid _ (isValidChar_of_lt _ (by omega))

/-- A decimal digit character is a digit. -/
theorem decDigit_isDigit (n : Nat) (h : n < 10) : (decDigit n).isDigit = true := by
  rw [isDigit_iff_toNat, decDigit_toNat n h]
  omega

/-- `natDigits` always begins with a digit character. -/
theorem natDigits_head (n : Nat) :
    ∃ d ds, natDigits n = d :: ds ∧ d.isDigit = true := by
  induction n using Nat.strong_induction_on with
  | _ n ih =>
    by_cases h : n < 10
    · exact ⟨decDigit n, [], by rw [natDigits]; simp [h], decDigit_isDigit n h⟩
    · obtain ⟨d, ds, hds, hd⟩ := ih (n / 10) (by omega)
      refine ⟨d, ds ++ [decDigit (n % 10)], ?_, hd⟩
      rw [natDigits]
      simp [h, hds]

/-- Reading digits stops at a non-digit boundary. -/
theorem pDigits_stop (cs : List Char) (acc : Nat) (h : noDigitHead cs) :
    pDigits cs acc = (acc, cs) := by
  cases cs with
  | nil => rfl
  | cons c rest =>
    simp only [noDigitHead] at h
    simp [pDigits, h]

/-- Reading the printed digits of `n` followed by anything shifts the
accumulator by the digit count and adds `n`. -/
theorem pDigits_append (n : Nat) : ∀ rest acc,
    pDigits (natDigits n ++ rest) acc = pDigits rest (acc * 10 ^ (natDigits n).length + n) := by
  induction n using Nat.strong_induction_on with
  | _ n ih =>
    intro rest acc
    by_cases h : n < 10
    · rw [natDigits]
      simp only [h, if_pos]
      simp [pDigits, decDigit_isDigit n h, decDigit_toNat n h]
      congr 1
      omega
    · rw [natDigits]
      simp only [h, if_false]
      rw [List.append_assoc, ih (n / 10) (by omega), List.singleton_append,
        pDigits, if_pos (decDigit_isDigit (n % 10) (by omega))]
      rw [decDigit_toNat (n % 10) (by omega)]
      congr 1
      have hlen : (natDigits (n / 10) ++ [decDigit (n % 10)]).length =
          (natDigits (n / 10)).length + 1 := by
        simp
      rw [hlen, pow_succ]
      have hmul : acc * (10 ^ (natDigits (n / 10)).length * 10) =
          acc * 10 ^ (natDigits (n / 10)).length * 10 := by
        ring
      rw [hmul]
      generalize acc * 10 ^ (natDigits (n / 10)).length = A
      omega

/-- Hex printing and parsing of a single digit are inverse. -/
theorem hexVal_hexDigitChar : ∀ n : Nat, n < 16 → hexVal (hexDigitChar n) = some n := by
  decide

/-- Parsing the four printed hex digits of `n < 0x10000` recovers `n`. -/
theorem pU4_digits (n : Nat) (hn : n < 65536) (rest : List Char) :
    pU4 (hexDigitChar (n / 4096 % 16) :: hexDigitChar (n / 256 % 16) ::
         hexDigitChar (n / 16 % 16) :: hexDigitChar (n % 16) :: rest) = some (n, rest) := by
  rw [pU4,
    hexVal_hexDigitChar _ (by omega), hexVal_hexDigitChar _ (by omega),
    hexVal_hexDigitChar _ (by omega), hexVal_hexDigitChar _ (by omega)]
  simp only [Option.some.injEq, Prod.mk.injEq, and_true]
  omega

/-- Parsing a `\uXXXX` escape of a non-surrogate code unit yields that code
point. -/
theorem pEsc_after_u (n : Nat) (hn : n < 65536) (hv : n < 55296 ∨ 57344 ≤ n)
    (tail : List Char) :
    pEsc ('u' :: hexDigitChar (n / 4096 % 16) :: hexDigitChar (n / 256 % 16) ::
          hexDigitChar (n / 16 % 16) :: hexDigitChar (n % 16) :: tail) =
      some (Char.ofNat n, tail) := by
  rw [pEsc]
  simp only [reduceIte, Char.reduceEq]
  rw [pU4_digits n hn tail]
  simp only [if_pos hv]

set_option maxRecDepth 4096 in
/-- Parsing a surrogate pair of `\uXXXX` escapes yields the astral code
point. -/
theorem pEsc_after_u_pair (t : Nat) (h1 : 65536 ≤ t) (h2 : t < 1114112) (tail : List Char) :
    pEsc ('u' :: (hexDigitChar ((55296 + (t - 65536) / 1024) / 4096 % 16) ::
          hexDigitChar ((55296 + (t - 65536) / 1024) / 256 % 16) ::
          hexDigitChar ((55296 + (t - 65536) / 1024) / 16 % 16) ::
          hexDigitChar ((55296 + (t - 65536) / 1024) % 16) ::
          ('\\' :: 'u' :: hexDigitChar ((56320 + (t - 65536) % 1024) / 4096 % 16) ::
           hexDigitChar ((56320 + (t - 65536) % 1024) / 256 % 16) ::
           hexDigitChar ((56320 + (t - 65536) % 1024) / 16 % 16) ::
           hexDigitChar ((56320 + (t - 65536) % 1024) % 16) :: tail))) =
      some (Char.ofNat t, tail) := by
  rw [pEsc]
  simp only [reduceIte, Char.reduceEq]
  rw [pU4_digits (55296 + (t - 65536) / 1024) (by omega)]
  have hc1 : ¬(55296 + (t - 65536) / 1024 < 55296 ∨ 57344 ≤ 55296 + (t - 65536) / 1024) := by
    omega
  dsimp only
  rw [if_neg hc1, if_pos (by omega : 55296 + (t - 65536) / 1024 < 56320)]
  simp only [Char.reduceEq, and_self, reduceIte]
  rw [pU4_digits (56320 + (t - 65536) % 1024) (by omega)]
  dsimp only
  rw [if_pos (by omega : 56320 ≤ 56320 + (t - 65536) % 1024 ∧ 56320 + (t - 65536) % 1024 < 57344)]
  have harith : 65536 + (55296 + (t - 65536) / 1024 - 55296) * 1024 +
      (56320 + (t - 65536) % 1024 - 56320) = t := by
    omega
  rw [harith]

/-- One parsing step over a printed escape: consuming `escChar c` produces
exactly `c` and continues. -/
theorem pStrAux_step (c : Char) (f : Nat) (tail : List Char) :
    pStrAux (f + 1) (escChar c ++ tail) =
      match pStrAux f tail with
      | none => none
      | some (s, r) => some (c :: s, r) := by
  rw [escChar]
  by_cases h1 : c = '"'
  · rw [if_pos h1, h1]
    rw [List.cons_append, List.cons_append, List.nil_append, pStrAux]
    simp only [Char.reduceEq, reduceIte]
    rw [pEsc]
    simp only [Char.reduceEq, reduceIte]
  · rw [if_neg h1]
    by_cases h2 : c = '\\'
    · rw [if_pos h2, h2]
      rw [List.cons_append, List.cons_append, List.nil_append, pStrAux]
      simp only [Char.reduceEq, reduceIte]
      rw [pEsc]
      simp only [Char.reduceEq, reduceIte]
    · rw [if_neg h2]
      by_cases h3 : c.toNat = 8
      · rw [if_pos h3]
        rw [List.cons_append, List.cons_append, List.nil_append, pStrAux]
        simp only [Char.reduceEq, reduceIte]
        rw [pEsc]
        simp only [Char.reduceEq, reduceIte]
        have hc : Char.ofNat 8 = c := by
          rw [← h3, Char.ofNat_toNat]
        rw [hc]
      · rw [if_neg h3]
        by_cases h4 : c.toNat = 9
        · rw [if_pos h4]
          rw [List.cons_append, List.cons_append, List.nil_append, pStrAux]
          simp only [Char.reduceEq, reduceIte]
          rw [pEsc]
          simp only [Char.reduceEq, reduceIte]
          have hc : Char.ofNat 9 = c := by
            rw [← h4, Char.ofNat_toNat]
          rw [hc]
        · rw [if_neg h4]
          by_cases h5 : c.toNat = 10
          · rw [if_pos h5]
            rw [List.cons_append, List.cons_append, List.nil_append, pStrAux]
            simp only [Char.reduceEq, reduceIte]
            rw [pEsc]
            simp only [Char.reduceEq, reduceIte]
            have hc : '\n' = c := by
              rw [char_eq_iff_toNat, h5]
              rfl
            rw [hc]
          · rw [if_neg h5]
            by_cases h6 : c.toNat = 12
            · rw [if_pos h6]
              rw [List.cons_append, List.cons_append, List.nil_append, pStrAux]
              simp only [Char.reduceEq, reduceIte]
              rw [pEsc]
              simp only [Char.reduceEq, reduceIte]
              have hc : Char.ofNat 12 = c := by
                rw [← h6, Char.ofNat_toNat]
              rw [hc]
            · rw [if_neg h6]
              by_cases h7 : c.toNat = 13
              · rw [if_pos h7]
                rw [List.cons_append, List.cons_append, List.nil_append, pStrAux]
                simp only [Char.reduceEq, reduceIte]
                rw [pEsc]
                simp only [Char.reduceEq, reduceIte]
                have hc : Char.ofNat 13 = c := by
                  rw [← h7, Char.ofNat_toNat]
                rw [hc]
              · rw [if_neg h7]
                by_cases h8 : c.toNat < 32
                · rw [if_pos h8]
                  simp only [uEsc, List.cons_append, List.nil_append]
                  rw [pStrAux]
                  simp only [Char.reduceEq, reduceIte]
                  rw [pEsc_after_u c.toNat (by omega) (by omega) tail]
                  rw [Char.ofNat_toNat]
                · rw [if_neg h8]
                  by_cases h9 : c.toNat ≤ 126
                  · rw [if_pos h9]
                    rw [List.singleton_append, pStrAux]
                    rw [if_neg h1, if_neg h2, if_neg (by omega : ¬c.toNat < 32)]
                  · rw [if_neg h9]
                    by_cases h10 : c.toNat < 65536
                    · rw [if_pos h10]
                      simp only [uEsc, List.cons_append, List.nil_append]
                      rw [pStrAux]
                      simp only [Char.reduceEq, reduceIte]
                      have hv : c.toNat < 55296 ∨ 57344 ≤ c.toNat := by
                        rcases char_toNat_bounds c with h | ⟨ha, hb⟩
                        · exact Or.inl h
                        · exact Or.inr (by omega)
                      rw [pEsc_after_u c.toNat (by omega) hv tail]
                      rw [Char.ofNat_toNat]
                    · rw [if_neg h10]
                      simp only [uEsc, List.cons_append, List.nil_append, List.append_assoc]
                      rw [pStrAux]
                      simp only [Char.reduceEq, reduceIte]
                      have hb2 : c.toNat < 1114112 := by
                        rcases char_toNat_bounds c with h | ⟨ha, hb⟩
                        · omega
                        · omega
                      rw [pEsc_after_u_pair c.toNat (by omega) hb2 tail]
                      rw [Char.ofNat_toNat]

/-- Parsing the escaped printing of a string's characters followed by the
closing quote recovers the characters exactly. -/
theorem pStrAux_round (s : List Char) : ∀ fuel rest, s.length < fuel →
    pStrAux fuel (escString s ++ '"' :: rest) = some (s, rest) := by
  induction s with
  | nil =>
    intro fuel rest h
    obtain ⟨f, rfl⟩ : ∃ f, fuel = f + 1 := ⟨fuel - 1, by omega⟩
    rw [show escString [] = [] from rfl, List.nil_append, pStrAux]
    simp only [Char.reduceEq, reduceIte]
  | cons c cs ih =>
    intro fuel rest h
    obtain ⟨f, rfl⟩ : ∃ f, fuel = f + 1 := ⟨fuel - 1, by omega⟩
    have hesc : escString (c :: cs) = escChar c ++ escString cs := by
      simp [escString]
    rw [hesc, List.append_assoc, pStrAux_step c f (escString cs ++ '"' :: rest)]
    rw [ih f rest (by simpa using Nat.lt_of_succ_lt_succ (by simpa using h))]

/-- Rebuilding a string from its character data is the identity. -/
theorem str_mk_data (s : String) : String.mk s.data = s := by
  cases s
  rfl

/-- Escaping never shortens a string. -/
theorem escString_length_ge (s : List Char) : s.length ≤ (escString s).length := by
  induction s with
  | nil => simp [escString]
  | cons c cs ih =>
    have h1 : escString (c :: cs) = escChar c ++ escString cs := by
      simp [escString]
    have h2 : 1 ≤ (escChar c).length := by
      rw [escChar]
      repeat' split
      all_goals simp [uEsc]
    rw [h1, List.length_append, List.length_cons]
    omega

/-- Whitespace characters by code point. -/
theorem isWs_iff (c : Char) :
    isWs c = true ↔ (c.toNat = 32 ∨ c.toNat = 9 ∨ c.toNat = 10 ∨ c.toNat = 13) := by
  simp only [isWs, decide_eq_true_eq]
  rw [char_eq_iff_toNat c ' ', char_eq_iff_toNat c '\t', char_eq_iff_toNat c '\n',
    char_eq_iff_toNat c '\x0d']
  rfl

/-- A digit character is not whitespace. -/
theorem isWs_of_digit (d : Char) (h : d.isDigit = true) : isWs d = false := by
  cases hw : isWs d with
  | false => rfl
  | true =>
    rw [isWs_iff] at hw
    rw [isDigit_iff_toNat] at h
    omega

/-- A digit character is none of the parser's keyword or structure heads. -/
theorem digit_not_keyword (d : Char) (h : d.isDigit = true) :
    d ≠ 'n' ∧ d ≠ 't' ∧ d ≠ 'f' ∧ d ≠ '"' ∧ d ≠ '[' ∧ d ≠ lbrace ∧ d ≠ '-' ∧
      d ≠ ']' ∧ d ≠ rbrace := by
  refine ⟨?_, ?_, ?_, ?_, ?_, ?_, ?_, ?_, ?_⟩ <;>
    exact fun he => absurd (he ▸ h) (by decide)

/-- The first character of any printed value, with the dispatch facts the
parser needs about it. -/
theorem dumpVal_head (j : J) (k : Nat) :
    ∃ c cs', dumpVal j k = c :: cs' ∧ isWs c = false ∧ c ≠ ']' ∧ c ≠ rbrace ∧ c ≠ ',' := by
  cases j with
  | null =>
    refine ⟨'n', ['u', 'l', 'l'], ?_, by decide, by decide, by decide, by decide⟩
    simp [dumpVal]
  | bool b =>
    cases b with
    | true =>
      refine ⟨'t', ['r', 'u', 'e'], ?_, by decide, by decide, by decide, by decide⟩
      simp [dumpVal]
    | false =>
      refine ⟨'f', ['a', 'l', 's', 'e'], ?_, by decide, by decide, by decide, by decide⟩
      simp [dumpVal]
  | int n =>
    cases n with
    | ofNat m =>
      obtain ⟨d, ds, hds, hd⟩ := natDigits_head m
      refine ⟨d, ds, ?_, isWs_of_digit d hd, (digit_not_keyword d hd).2.2.2.2.2.2.2.1,
        (digit_not_keyword d hd).2.2.2.2.2.2.2.2, ?_⟩
      · simp [dumpVal, dumpInt, hds]
      · exact fun he => absurd (he ▸ hd) (by decide)
    | negSucc m =>
      refine ⟨'-', natDigits (m + 1), ?_, by decide, by decide, by decide, by decide⟩
      simp [dumpVal, dumpInt]
  | str s =>
    refine ⟨'"', escString s.data ++ ['"'], ?_, by decide, by decide, by decide, by decide⟩
    simp [dumpVal, dumpStr]
  | arr xs =>
    refine ⟨'[', dumpArrBody xs k, ?_, by decide, by decide, by decide, by decide⟩
    simp [dumpVal]
  | obj kvs =>
    refine ⟨lbrace, dumpObjBody kvs k, ?_, by decide, by decide, by decide, by decide⟩
    simp [dumpVal]

/-- Leading whitespace of a printed value is nothing: skipping is the
identity. -/
theorem skipWs_dumpVal (j : J) (k : Nat) (rest : List Char) :
    skipWs (dumpVal j k ++ rest) = dumpVal j k ++ rest := by
  obtain ⟨c, cs', hds, hws, _, _, _⟩ := dumpVal_head j k
  rw [hds, List.cons_append, skipWs_cons_not _ hws]

/-- What follows an array element never starts with a digit. -/
theorem noDigitHead_arrTail (xs : List J) (kk k2 : Nat) (rest : List Char) :
    noDigitHead (dumpArrTail xs kk ++ nlIndent k2 ++ ']' :: rest) := by
  cases xs with
  | nil =>
    simp only [dumpArrTail, List.nil_append, nlIndent, List.cons_append, noDigitHead]
    decide
  | cons x xs' =>
    simp only [dumpArrTail, List.cons_append, List.append_assoc, noDigitHead]
    decide

/-- What follows an object member never starts with a digit. -/
theorem noDigitHead_objTail (kvs : List (String × J)) (kk k2 : Nat) (rest : List Char) :
    noDigitHead (dumpObjTail kvs kk ++ nlIndent k2 ++ rbrace :: rest) := by
  cases kvs with
  | nil =>
    simp only [dumpObjTail, List.nil_append, nlIndent, List.cons_append, noDigitHead]
    decide
  | cons kv kvs' =>
    obtain ⟨key, v⟩ := kv
    simp only [dumpObjTail, List.cons_append, List.append_assoc, noDigitHead]
    decide

/-- Every value needs at least one unit of fuel. -/
theorem fuelJ_pos (j : J) : 1 ≤ fuelJ j := by
  cases j <;> simp [fuelJ] <;> omega

theorem parse_print : ∀ f : Nat,
    (∀ (j : J) (k : Nat) (cs rest : List Char), fuelJ j ≤ f → noDigitHead rest →
      skipWs cs = dumpVal j k ++ rest → pVal f cs = some (j, rest)) ∧
    (∀ (xs : List J) (k : Nat) (rest : List Char), fuelL xs + 1 ≤ f →
      pItems f (dumpArrBody xs k ++ rest) = some (xs, rest)) ∧
    (∀ (xs : List J) (kk k2 : Nat) (rest : List Char), fuelL xs + 1 ≤ f →
      pItemsTail f (dumpArrTail xs kk ++ (nlIndent k2 ++ (']' :: rest))) = some (xs, rest)) ∧
    (∀ (kvs : List (String × J)) (k : Nat) (rest : List Char), fuelM kvs + 1 ≤ f →
      pMembers f (dumpObjBody kvs k ++ rest) = some (kvs, rest)) ∧
    (∀ (kvs : List (String × J)) (kk k2 : Nat) (rest : List Char), fuelM kvs + 1 ≤ f →
      pMembersTail f (dumpObjTail kvs kk ++ (nlIndent k2 ++ (rbrace :: rest))) = some (kvs, rest)) := by
  intro f
  induction f using Nat.strong_induction_on with
  | _ f ih =>
    refine ⟨?_, ?_, ?_, ?_, ?_⟩
    · -- values
      intro j k cs rest hfuel hnd hcs
      have h1 : 1 ≤ f := le_trans (fuelJ_pos j) hfuel
      obtain ⟨g, rfl⟩ : ∃ g, f = g + 1 := ⟨f - 1, by omega⟩
      rw [pVal, hcs]
      cases j with
      | null =>
        rw [show dumpVal J.null k = ['n', 'u', 'l', 'l'] from by simp [dumpVal]]
        simp only [List.cons_append, List.nil_append]
        simp only [Char.reduceEq, reduceIte]
      | bool b =>
        cases b with
        | true =>
          rw [show dumpVal (J.bool true) k = ['t', 'r', 'u', 'e'] from by simp [dumpVal]]
          simp only [List.cons_append, List.nil_append]
          simp only [Char.reduceEq, reduceIte]
        | false =>
          rw [show dumpVal (J.bool false) k = ['f', 'a', 'l', 's', 'e'] from by simp [dumpVal]]
          simp only [List.cons_append, List.nil_append]
          simp only [Char.reduceEq, reduceIte]
      | int n =>
        cases n with
        | ofNat m =>
          obtain ⟨d, ds, hds, hd⟩ := natDigits_head m
          rw [show dumpVal (J.int (Int.ofNat m)) k = natDigits m from by simp [dumpVal, dumpInt]]
          rw [hds, List.cons_append]
          obtain ⟨hn', ht', hf', hq', hb', hl', hm', _, _⟩ := digit_not_keyword d hd
          simp only [if_neg hn', if_neg ht', if_neg hf', if_neg hq', if_neg hb', if_neg hl',
            if_neg hm', hd, if_pos]
          rw [← List.cons_append, ← hds, pDigits_append, pDigits_stop rest _ hnd]
          simp
        | negSucc m =>
          rw [show dumpVal (J.int (Int.negSucc m)) k = '-' :: natDigits (m + 1) from by
            simp [dumpVal, dumpInt]]
          rw [List.cons_append]
          simp only [Char.reduceEq, reduceIte]
          rw [if_neg (show ¬ '-' = lbrace from by decide)]
          obtain ⟨d, ds, hds, hd⟩ := natDigits_head (m + 1)
          rw [hds, List.cons_append]
          simp only [hd, if_pos]
          rw [← List.cons_append, ← hds, pDigits_append, pDigits_stop rest _ hnd]
          simp only [Nat.zero_mul, Nat.zero_add, Option.some.injEq, Prod.mk.injEq, and_true,
            J.int.injEq]
          rw [Int.negSucc_eq]
          push_cast
          ring
      | str s =>
        rw [show dumpVal (J.str s) k = '"' :: (escString s.data ++ ['"']) from by
          simp [dumpVal, dumpStr]]
        rw [List.cons_append, List.append_assoc, List.singleton_append]
        simp only [Char.reduceEq, reduceIte]
        rw [pStrAux_round s.data _ rest (by
          have := escString_length_ge s.data
          simp only [List.length_append, List.length_cons]
          omega)]
      | arr xs =>
        rw [show dumpVal (J.arr xs) k = '[' :: dumpArrBody xs k from by simp [dumpVal]]
        rw [List.cons_append]
        simp only [Char.reduceEq, reduceIte]
        have hfe : fuelJ (J.arr xs) = 2 + fuelL xs := by simp [fuelJ]
        rw [(ih g (by omega)).2.1 xs k rest (by omega)]
      | obj kvs =>
        rw [show dumpVal (J.obj kvs) k = lbrace :: dumpObjBody kvs k from by simp [dumpVal]]
        rw [List.cons_append]
        dsimp only
        rw [if_neg (by decide : ¬lbrace = 'n'), if_neg (by decide : ¬lbrace = 't'),
          if_neg (by decide : ¬lbrace = 'f'), if_neg (by decide : ¬lbrace = '"'),
          if_neg (by decide : ¬lbrace = '['), if_pos rfl]
        have hfe : fuelJ (J.obj kvs) = 2 + fuelM kvs := by simp [fuelJ]
        rw [(ih g (by omega)).2.2.2.1 kvs k rest (by omega)]
    · -- array items after the opening bracket
      intro xs k rest hfuel
      obtain ⟨g, rfl⟩ : ∃ g, f = g + 1 := ⟨f - 1, by omega⟩
      cases xs with
      | nil =>
        rw [show dumpArrBody ([] : List J) k = [']'] from by simp [dumpArrBody]]
        rw [List.singleton_append, pItems]
        rw [skipWs_cons_not _ (by decide : isWs ']' = false)]
        dsimp only
        simp only [Char.reduceEq, reduceIte]
      | cons x xs' =>
        rw [show dumpArrBody (x :: xs') k =
            nlIndent (k + 1) ++ (dumpVal x (k + 1) ++ (dumpArrTail xs' (k + 1) ++
              (nlIndent k ++ [']']))) from by simp [dumpArrBody]]
        rw [pItems]
        simp only [List.append_assoc, List.singleton_append]
        rw [skipWs_nlIndent, skipWs_dumpVal]
        obtain ⟨c, cs', hdsx, hws, hcb, hcr, hcm⟩ := dumpVal_head x (k + 1)
        rw [hdsx, List.cons_append]
        dsimp only
        rw [if_neg hcb]
        have hfl : fuelL (x :: xs') = fuelJ x + 1 + fuelL xs' := by simp [fuelL]
        rw [(ih g (by omega)).1 x (k + 1)
          (c :: (cs' ++ (dumpArrTail xs' (k + 1) ++ (nlIndent k ++ ']' :: rest))))
          (dumpArrTail xs' (k + 1) ++ (nlIndent k ++ ']' :: rest))
          (by omega)
          (by simpa [List.append_assoc] using noDigitHead_arrTail xs' (k + 1) k rest)
          (by rw [skipWs_cons_not _ hws, hdsx, List.cons_append])]
        dsimp only
        rw [show dumpArrTail xs' (k + 1) ++ (nlIndent k ++ ']' :: rest) =
            dumpArrTail xs' (k + 1) ++ (nlIndent k ++ (']' :: rest)) from rfl]
        rw [(ih g (by omega)).2.2.1 xs' (k + 1) k rest (by omega)]
    · -- array tail: comma-separated continuations
      intro xs kk k2 rest hfuel
      obtain ⟨g, rfl⟩ : ∃ g, f = g + 1 := ⟨f - 1, by omega⟩
      cases xs with
      | nil =>
        rw [show dumpArrTail ([] : List J) kk = [] from by simp [dumpArrTail]]
        rw [List.nil_append, pItemsTail, skipWs_nlIndent]
        rw [skipWs_cons_not _ (by decide : isWs ']' = false)]
        dsimp only
        simp only [Char.reduceEq, reduceIte]
      | cons x xs' =>
        rw [show dumpArrTail (x :: xs') kk =
            ',' :: (nlIndent kk ++ (dumpVal x kk ++ dumpArrTail xs' kk)) from by
          simp [dumpArrTail]]
        rw [List.cons_append, pItemsTail]
        rw [skipWs_cons_not _ (by decide : isWs ',' = false)]
        dsimp only
        simp only [Char.reduceEq, reduceIte]
        simp only [List.append_assoc]
        have hfl : fuelL (x :: xs') = fuelJ x + 1 + fuelL xs' := by simp [fuelL]
        rw [(ih g (by omega)).1 x kk
          (nlIndent kk ++ (dumpVal x kk ++ (dumpArrTail xs' kk ++ (nlIndent k2 ++ ']' :: rest))))
          (dumpArrTail xs' kk ++ (nlIndent k2 ++ ']' :: rest))
          (by omega)
          (by simpa [List.append_assoc] using noDigitHead_arrTail xs' kk k2 rest)
          (by rw [skipWs_nlIndent, skipWs_dumpVal])]
        dsimp only
        rw [(ih g (by omega)).2.2.1 xs' kk k2 rest (by omega)]
    · -- object members after the opening brace
      intro kvs k rest hfuel
      obtain ⟨g, rfl⟩ : ∃ g, f = g + 1 := ⟨f - 1, by omega⟩
      cases kvs with
      | nil =>
        rw [show dumpObjBody ([] : List (String × J)) k = [rbrace] from by simp [dumpObjBody]]
        rw [List.singleton_append, pMembers]
        rw [skipWs_cons_not _ (by decide : isWs rbrace = false)]
        dsimp only
        rw [if_pos rfl]
      | cons kv kvs' =>
        obtain ⟨key, v⟩ := kv
        rw [show dumpObjBody ((key, v) :: kvs') k =
            nlIndent (k + 1) ++ ('"' :: (escString key.data ++
              ('"' :: (':' :: (' ' :: (dumpVal v (k + 1) ++ (dumpObjTail kvs' (k + 1) ++
                (nlIndent k ++ [rbrace])))))))) from by
          simp [dumpObjBody, dumpStr]]
        rw [pMembers]
        simp only [List.append_assoc, List.cons_append, List.singleton_append, List.nil_append]
        rw [skipWs_nlIndent]
        rw [skipWs_cons_not _ (by decide : isWs '"' = false)]
        dsimp only
        rw [if_neg (by decide : ¬ '"' = rbrace), if_pos rfl]
        rw [pStrAux_round key.data _ _ (by
          have := escString_length_ge key.data
          simp only [List.length_append, List.length_cons]
          omega)]
        dsimp only
        rw [skipWs_cons_not _ (by decide : isWs ':' = false)]
        dsimp only
        rw [if_pos rfl]
        have hfm : fuelM ((key, v) :: kvs') = fuelJ v + 1 + fuelM kvs' := by simp [fuelM]
        rw [(ih g (by omega)).1 v (k + 1)
          (' ' :: (dumpVal v (k + 1) ++ (dumpObjTail kvs' (k + 1) ++ (nlIndent k ++ rbrace :: rest))))
          (dumpObjTail kvs' (k + 1) ++ (nlIndent k ++ rbrace :: rest))
          (by omega)
          (by simpa [List.append_assoc] using noDigitHead_objTail kvs' (k + 1) k rest)
          (by rw [skipWs_cons_ws _ (by decide : isWs ' ' = true), skipWs_dumpVal])]
        dsimp only
        rw [(ih g (by omega)).2.2.2.2 kvs' (k + 1) k rest (by omega)]
    · -- object tail: comma-separated continuations
      intro kvs kk k2 rest hfuel
      obtain ⟨g, rfl⟩ : ∃ g, f = g + 1 := ⟨f - 1, by omega⟩
      cases kvs with
      | nil =>
        rw [show dumpObjTail ([] : List (String × J)) kk = [] from by simp [dumpObjTail]]
        rw [List.nil_append, pMembersTail, skipWs_nlIndent]
        rw [skipWs_cons_not _ (by decide : isWs rbrace = false)]
        dsimp only
        rw [if_pos rfl]
      | cons kv kvs' =>
        obtain ⟨key, v⟩ := kv
        rw [show dumpObjTail ((key, v) :: kvs') kk =
            ',' :: (nlIndent kk ++ ('"' :: (escString key.data ++
              ('"' :: (':' :: (' ' :: (dumpVal v kk ++ dumpObjTail kvs' kk))))))) from by
          simp [dumpObjTail, dumpStr]]
        rw [List.cons_append, pMembersTail]
        rw [skipWs_cons_not _ (by decide : isWs ',' = false)]
        dsimp only
        rw [if_neg (by decide : ¬ ',' = rbrace), if_pos rfl]
        simp only [List.append_assoc, List.cons_append]
        rw [skipWs_nlIndent]
        rw [skipWs_cons_not _ (by decide : isWs '"' = false)]
        dsimp only
        rw [if_pos rfl]
        rw [pStrAux_round key.data _ _ (by
          have := escString_length_ge key.data
          simp only [List.length_append, List.length_cons]
          omega)]
        dsimp only
        rw [skipWs_cons_not _ (by decide : isWs ':' = false)]
        dsimp only
        rw [if_pos rfl]
        have hfm : fuelM ((key, v) :: kvs') = fuelJ v + 1 + fuelM kvs' := by simp [fuelM]
        rw [(ih g (by omega)).1 v kk
          (' ' :: (dumpVal v kk ++ (dumpObjTail kvs' kk ++ (nlIndent k2 ++ rbrace :: rest))))
          (dumpObjTail kvs' kk ++ (nlIndent k2 ++ rbrace :: rest))
          (by omega)
          (by simpa [List.append_assoc] using noDigitHead_objTail kvs' kk k2 rest)
          (by rw [skipWs_cons_ws _ (by decide : isWs ' ' = true), skipWs_dumpVal])]
        dsimp only
        rw [(ih g (by omega)).2.2.2.2 kvs' kk k2 rest (by omega)]

theorem spaces_length (n : Nat) : (spaces n).length = n := by
  induction n with
  | zero => rfl
  | succ m ih => simp [spaces, ih]

theorem nlIndent_length (k : Nat) : (nlIndent k).length = 1 + 4 * k := by
  simp [nlIndent, spaces_length]
  omega

mutual

theorem lenBound_val : ∀ (j : J) (k : Nat), fuelJ j ≤ (dumpVal j k).length + 1
  | J.null, k => by simp [dumpVal, fuelJ]
  | J.bool true, k => by simp [dumpVal, fuelJ]
  | J.bool false, k => by simp [dumpVal, fuelJ]
  | J.int n, k => by simp [dumpVal, fuelJ]
  | J.str s, k => by simp [dumpVal, fuelJ]
  | J.arr xs, k => by
      have h := lenBound_arrBody xs k
      simp only [dumpVal, fuelJ, List.length_cons]
      omega
  | J.obj kvs, k => by
      have h := lenBound_objBody kvs k
      simp only [dumpVal, fuelJ, List.length_cons]
      omega

theorem lenBound_arrBody : ∀ (xs : List J) (k : Nat),
    fuelL xs + 2 ≤ (dumpArrBody xs k).length + 1
  | [], k => by simp [dumpArrBody, fuelL]
  | x :: xs, k => by
      have h1 := lenBound_val x (k + 1)
      have h2 := lenBound_arrTail xs (k + 1)
      simp only [dumpArrBody, fuelL, List.length_append, List.length_cons,
        nlIndent_length, List.length_nil]
      omega

theorem lenBound_arrTail : ∀ (xs : List J) (k : Nat), fuelL xs ≤ (dumpArrTail xs k).length
  | [], k => by simp [dumpArrTail, fuelL]
  | x :: xs, k => by
      have h1 := lenBound_val x k
      have h2 := lenBound_arrTail xs k
      simp only [dumpArrTail, fuelL, List.length_append, List.length_cons, nlIndent_length]
      omega

theorem lenBound_objBody : ∀ (kvs : List (String × J)) (k : Nat),
    fuelM kvs + 2 ≤ (dumpObjBody kvs k).length + 1
  | [], k => by simp [dumpObjBody, fuelM]
  | (key, v) :: kvs, k => by
      have h1 := lenBound_val v (k + 1)
      have h2 := lenBound_objTail kvs (k + 1)
      simp only [dumpObjBody, fuelM, List.length_append, List.length_cons,
        nlIndent_length, List.length_nil]
      omega

theorem lenBound_objTail : ∀ (kvs : List (String × J)) (k : Nat),
    fuelM kvs ≤ (dumpObjTail kvs k).length
  | [], k => by simp [dumpObjTail, fuelM]
  | (key, v) :: kvs, k => by
      have h1 := lenBound_val v k
      have h2 := lenBound_objTail kvs k
      simp only [dumpObjTail, fuelM, List.length_append, List.length_cons, nlIndent_length]
      omega

end

/-- The write-then-read round trip: `json.load` of what `json.dump(.., indent=4)`
wrote is the identity on every JSON value. -/
theorem loads_dumps (j : J) : loads (dumps j) = some j := by
  rw [loads, dumps]
  have hcs : skipWs (dumpVal j 0) = dumpVal j 0 ++ [] := by
    rw [List.append_nil]
    obtain ⟨c, cs', hds, hws, _, _, _⟩ := dumpVal_head j 0
    rw [hds, skipWs_cons_not _ hws]
  have h := (parse_print ((dumpVal j 0).length + 1)).1 j 0 (dumpVal j 0) []
    (lenBound_val j 0) trivial hcs
  rw [h]
  simp [skipWs]

theorem data_ne_empty {data : List (String × J)} {pv : J}
    (hp : dictGet data "pgn" = some pv) : data.isEmpty = false := by
  cases data with
  | nil => simp [dictGet] at hp
  | cons kv rest => rfl

theorem analyze_depth_invalid (env : Env) (data : List (String × J)) (depth pv : J)
    (hp : dictGet data "pgn" = some pv) (hd : dictGet data "depth" = some depth)
    (hbad : isinstance_int depth = false ∨ pyIntVal depth ≤ 0) :
    analyze_pgn env true (some data) =
      ([], Resp.err 400 "Invalid \x27depth\x27 value. It must be a positive integer.") := by
  unfold analyze_pgn
  simp only [Bool.true_eq_false, if_false, reduceIte]
  rw [data_ne_empty hp, hp, hd]
  simp only [Option.isNone_some, Bool.or_self, Bool.false_eq_true, if_false, Option.getD_some]
  rw [if_pos ?hcond]
  case hcond =>
    rcases hbad with h | h
    · exact Or.inl h
    · exact Or.inr h

theorem analyze_empty_run (env : Env) (data : List (String × J)) (s : String) (depth : J)
    (hp : dictGet data "pgn" = some (J.str s))
    (hdep : (dictGet data "depth").getD (J.int MAX_DEPTH) = depth)
    (hint : isinstance_int depth = true) (hpos : 0 < pyIntVal depth)
    (hfens : pgn_to_fen_list env.read_game (J.str s) = []) :
    analyze_pgn env true (some data) =
      ([Event.setDepth depth, Event.expandPgn (J.str s)],
       Resp.err 400 "No valid positions found in PGN.") := by
  unfold analyze_pgn
  simp only [Bool.true_eq_false, if_false, reduceIte]
  rw [data_ne_empty hp, hp, hdep]
  simp only [Option.isNone_some, Bool.or_self, Bool.false_eq_true, if_false, Option.getD_some]
  rw [if_neg (by rw [hint]; simp; omega)]
  rw [hfens]
  simp

theorem analyze_success_run (env : Env) (data : List (String × J)) (s : String) (depth : J)
    (hp : dictGet data "pgn" = some (J.str s))
    (hdep : (dictGet data "depth").getD (J.int MAX_DEPTH) = depth)
    (hint : isinstance_int depth = true) (hpos : 0 < pyIntVal depth)
    (hfens : pgn_to_fen_list env.read_game (J.str s) ≠ []) :
    analyze_pgn env true (some data) =
      (([Event.setDepth depth, Event.expandPgn (J.str s)] ++
          loopEvents (pgn_to_fen_list env.read_game (J.str s))) ++
        (if env.writeOk then
          [Event.writeFile (savePath env)
            (dumps (analysisRecord env depth (J.str s) (pgn_to_fen_list env.read_game (J.str s))))]
         else []),
       if env.writeOk then
         Resp.ok (J.obj [("status", J.str "success"),
           ("analysis", analysisRecord env depth (J.str s) (pgn_to_fen_list env.read_game (J.str s)))])
       else Resp.err 500 "Failed to save analysis results.") := by
  unfold analyze_pgn
  simp only [Bool.true_eq_false, if_false, reduceIte]
  rw [data_ne_empty hp, hp, hdep]
  simp only [Option.isNone_some, Bool.or_self, Bool.false_eq_true, if_false, Option.getD_some]
  rw [if_neg (by rw [hint]; simp; omega)]
  rw [if_neg (by simp [hfens] : ¬(pgn_to_fen_list env.read_game (J.str s)).isEmpty = true)]
  unfold save_analysis_to_file
  cases hw : env.writeOk with
  | true => simp
  | false => simp

theorem walkFens_length : ∀ g : GameNode, (walkFens g).length = mainlineMoves g
  | GameNode.node _ [] => by simp [walkFens, mainlineMoves]
  | GameNode.node fen (v :: vs) => by
      have h := walkFens_length v
      simp [walkFens, mainlineMoves, h]
      omega
decreasing_by simp; omega

theorem walkFens_nil_of_no_moves (g : GameNode) (h : mainlineMoves g = 0) :
    walkFens g = [] := by
  cases g with
  | node fen vs =>
    cases vs with
    | nil => simp [walkFens]
    | cons v vs' =>
      rw [mainlineMoves] at h
      omega

theorem walkFens_head (fen : String) (v : GameNode) (vs : List GameNode) :
    (walkFens (GameNode.node fen (v :: vs))).head? = some fen := by
  simp [walkFens]

theorem pgn_is_str_of_fens_ne {read_game : String → Option GameNode} {pgn : J}
    (h : pgn_to_fen_list read_game pgn ≠ []) : ∃ s, pgn = J.str s := by
  cases pgn with
  | str s => exact ⟨s, rfl⟩
  | null => simp [pgn_to_fen_list] at h
  | bool b => simp [pgn_to_fen_list] at h
  | int n => simp [pgn_to_fen_list] at h
  | arr xs => simp [pgn_to_fen_list] at h
  | obj kvs => simp [pgn_to_fen_list] at h

theorem analyze_ok_inv (env : Env) (body : Option (List (String × J)))
    (tr : List Event) (b : J)
    (h : analyze_pgn env true body = (tr, Resp.ok b)) :
    ∃ data s depth, body = some data ∧ dictGet data "pgn" = some (J.str s) ∧
      (dictGet data "depth").getD (J.int MAX_DEPTH) = depth ∧
      isinstance_int depth = true ∧ 0 < pyIntVal depth ∧
      pgn_to_fen_list env.read_game (J.str s) ≠ [] ∧ env.writeOk = true ∧
      b = J.obj [("status", J.str "success"),
        ("analysis", analysisRecord env depth (J.str s) (pgn_to_fen_list env.read_game (J.str s)))] ∧
      tr = ([Event.setDepth depth, Event.expandPgn (J.str s)] ++
          loopEvents (pgn_to_fen_list env.read_game (J.str s))) ++
        [Event.writeFile (savePath env)
          (dumps (analysisRecord env depth (J.str s) (pgn_to_fen_list env.read_game (J.str s))))] := by
  cases body with
  | none =>
    rw [analyze_pgn] at h
    simp at h
  | some data =>
    rw [analyze_pgn] at h
    simp only [Bool.true_eq_false, if_false, reduceIte] at h
    by_cases hempty : (data.isEmpty || (dictGet data "pgn").isNone) = true
    · rw [if_pos hempty] at h
      simp at h
    · rw [if_neg hempty] at h
      simp only [Bool.or_eq_true, Option.isNone_iff_eq_none, not_or] at hempty
      obtain ⟨hne, hpgn⟩ := hempty
      obtain ⟨pv, hpv⟩ : ∃ pv, dictGet data "pgn" = some pv := by
        cases hg : dictGet data "pgn" with
        | none => exact absurd hg hpgn
        | some v => exact ⟨v, rfl⟩
      by_cases hdep : (isinstance_int ((dictGet data "depth").getD (J.int MAX_DEPTH)) = false ∨
          pyIntVal ((dictGet data "depth").getD (J.int MAX_DEPTH)) ≤ 0)
      · rw [if_pos hdep] at h
        simp at h
      · rw [if_neg hdep] at h
        by_cases hfens :
            (pgn_to_fen_list env.read_game ((dictGet data "pgn").getD J.null)).isEmpty = true
        · rw [if_pos hfens] at h
          simp at h
        · rw [if_neg hfens] at h
          rw [hpv, Option.getD_some] at h hfens
          have hfne : pgn_to_fen_list env.read_game pv ≠ [] := by
            simpa [List.isEmpty_iff] using hfens
          obtain ⟨s, hs⟩ := pgn_is_str_of_fens_ne hfne
          subst hs
          rw [save_analysis_to_file] at h
          by_cases hw : env.writeOk = true
          · rw [if_pos hw] at h
            simp only [Prod.mk.injEq, Resp.ok.injEq] at h
            push_neg at hdep
            exact ⟨data, s, (dictGet data "depth").getD (J.int MAX_DEPTH), rfl, hpv, rfl,
              by simpa using hdep.1, hdep.2, hfne, hw, h.2.symm, h.1.symm⟩
          · rw [if_neg hw] at h
            simp at h

/-- C1 (counterexample): the PGN `"1. e4"` is a valid one-move game (M = 1),
yet the Game Expander returns one position, not M + 1 = 2: the walk of
`pgn_to_fen_list` stops before recording the position after the final move. -/
theorem C1_counterexample :
    read_gameEx "1. e4" = some gameE4 ∧ mainlineMoves gameE4 = 1 ∧
      (pgn_to_fen_list read_gameEx (J.str "1. e4")).length ≠ 1 + 1 := by
  refine ⟨rfl, ?_, ?_⟩
  · simp [gameE4, mainlineMoves]
  · simp [pgn_to_fen_list, read_gameEx, gameE4, walkFens]

/-- C1 (amended): for every PGN the parser accepts as a game with M played
moves, `pgn_to_fen_list` returns exactly M ordered position strings — the FENs
recorded along the main-line walk, starting (when M is positive) with the
starting position; the position after the final move is not included. -/
theorem C1_theorem (read_game : String → Option GameNode) (pgn : String) (g : GameNode)
    (h : read_game pgn = some g) :
    pgn_to_fen_list read_game (J.str pgn) = walkFens g ∧
    (pgn_to_fen_list read_game (J.str pgn)).length = mainlineMoves g ∧
    (0 < mainlineMoves g →
      (pgn_to_fen_list read_game (J.str pgn)).head? = some (rootFen g)) := by
  have he : pgn_to_fen_list read_game (J.str pgn) = walkFens g := by
    simp [pgn_to_fen_list, h]
  refine ⟨he, by rw [he, walkFens_length], ?_⟩
  intro hpos
  rw [he]
  cases g with
  | node fen vs =>
    cases vs with
    | nil => rw [mainlineMoves] at hpos; omega
    | cons v vs' => simp [walkFens_head, rootFen]

/-- C1 (witness): the amended statement evaluated on the one-move game. -/
theorem C1_witness :
    pgn_to_fen_list read_gameEx (J.str "1. e4") = walkFens gameE4 ∧
    (pgn_to_fen_list read_gameEx (J.str "1. e4")).length = mainlineMoves gameE4 ∧
    (0 < mainlineMoves gameE4 →
      (pgn_to_fen_list read_gameEx (J.str "1. e4")).head? = some (rootFen gameE4)) :=
  C1_theorem read_gameEx "1. e4" gameE4 rfl

/-- C2 (counterexample): a PGN parsing to a zero-move game does not yield one
position and is not treated as valid: the expander returns the empty list and
`analyze` rejects the request with the invalid-input 400. -/
theorem C2_counterexample :
    read_gameEx "*" = some gameEmpty ∧ mainlineMoves gameEmpty = 0 ∧
      pgn_to_fen_list read_gameEx (J.str "*") = [] ∧
      (analyze_pgn envEx true (some [("pgn", J.str "*")])).2 =
        Resp.err 400 "No valid positions found in PGN." := by
  refine ⟨rfl, by simp [gameEmpty, mainlineMoves], ?_, ?_⟩
  · simp [pgn_to_fen_list, read_gameEx, gameEmpty, walkFens]
  · rw [analyze_empty_run envEx [("pgn", J.str "*")] "*" (J.int 15) rfl rfl rfl (by decide)
      (by simp [pgn_to_fen_list, envEx, read_gameEx, gameEmpty, walkFens])]

/-- C2 (amended): a PGN that parses to a zero-move game expands to the empty
position list, and `analyze` rejects the request as invalid input (400 with
the no-valid-positions message) after setting the engine depth. -/
theorem C2_theorem (env : Env) (data : List (String × J)) (s : String) (g : GameNode) (depth : J)
    (hp : dictGet data "pgn" = some (J.str s))
    (hdep : (dictGet data "depth").getD (J.int MAX_DEPTH) = depth)
    (hint : isinstance_int depth = true) (hpos : 0 < pyIntVal depth)
    (hg : env.read_game s = some g) (hmoves : mainlineMoves g = 0) :
    pgn_to_fen_list env.read_game (J.str s) = [] ∧
    analyze_pgn env true (some data) =
      ([Event.setDepth depth, Event.expandPgn (J.str s)],
       Resp.err 400 "No valid positions found in PGN.") := by
  have hfens : pgn_to_fen_list env.read_game (J.str s) = [] := by
    simp [pgn_to_fen_list, hg, walkFens_nil_of_no_moves g hmoves]
  exact ⟨hfens, analyze_empty_run env data s depth hp hdep hint hpos hfens⟩

/-- C2 (witness): the amended statement evaluated on the zero-move game. -/
theorem C2_witness :
    pgn_to_fen_list envEx.read_game (J.str "*") = [] ∧
    analyze_pgn envEx true (some [("pgn", J.str "*")]) =
      ([Event.setDepth (J.int 15), Event.expandPgn (J.str "*")],
       Resp.err 400 "No valid positions found in PGN.") :=
  C2_theorem envEx [("pgn", J.str "*")] "*" gameEmpty (J.int 15) rfl rfl rfl (by decide)
    rfl (by simp [gameEmpty, mainlineMoves])

/-- C3 (counterexample): a successful analysis record carries exactly the
fields `pgn`, `depth` and `positions` — there is no `createdAt` and no `id`
field in the record (the timestamp and unique id appear only in the storage
filename). -/
theorem C3_counterexample :
    (analyze_pgn envEx true (some [("pgn", J.str "1. e4")])).2 =
      Resp.ok (J.obj [("status", J.str "success"), ("analysis", recEx)]) ∧
    jKeys recEx = ["pgn", "depth", "positions"] ∧
    ¬"createdAt" ∈ jKeys recEx ∧ ¬"id" ∈ jKeys recEx := by
  refine ⟨?_, by simp [jKeys, recEx], by simp [jKeys, recEx], by simp [jKeys, recEx]⟩
  simp [analyze_pgn, envEx, gameE4, pgn_to_fen_list, walkFens, dictGet, isinstance_int,
    pyIntVal, save_analysis_to_file, savePath, MAX_DEPTH, read_gameEx, topMovesEx,
    analysisRecord, positionsOf, loopEvents, recEx, ANALYSES_FOLDER]

/-- C3 (amended): every successful analysis produces a record with exactly the
fields `pgn`, `depth` and `positions` (in that order); the creation timestamp
and unique identifier appear only in the name of the file the record is
written to, `analyses/(timestamp)_(uuid).json`, not as fields of the record. -/
theorem C3_theorem (env : Env) (body : Option (List (String × J)))
    (tr : List Event) (b : J)
    (h : analyze_pgn env true body = (tr, Resp.ok b)) :
    ∃ pgnv depthv fens,
      b = J.obj [("status", J.str "success"), ("analysis", analysisRecord env depthv pgnv fens)] ∧
      jKeys (analysisRecord env depthv pgnv fens) = ["pgn", "depth", "positions"] ∧
      tr = ([Event.setDepth depthv, Event.expandPgn pgnv] ++ loopEvents fens) ++
        [Event.writeFile (savePath env) (dumps (analysisRecord env depthv pgnv fens))] := by
  obtain ⟨data, s, depth, _, _, _, _, _, _, _, hb, htr⟩ := analyze_ok_inv env body tr b h
  exact ⟨J.str s, depth, pgn_to_fen_list env.read_game (J.str s), hb,
    by simp [jKeys, analysisRecord], htr⟩

/-- C3 (witness): the amended statement evaluated on a concrete successful
run. -/
theorem C3_witness :
    ∃ pgnv depthv fens,
      J.obj [("status", J.str "success"), ("analysis", recEx)] =
        J.obj [("status", J.str "success"), ("analysis", analysisRecord envEx depthv pgnv fens)] ∧
      jKeys (analysisRecord envEx depthv pgnv fens) = ["pgn", "depth", "positions"] ∧
      (analyze_pgn envEx true (some [("pgn", J.str "1. e4")])).1 =
        ([Event.setDepth depthv, Event.expandPgn pgnv] ++ loopEvents fens) ++
          [Event.writeFile (savePath envEx) (dumps (analysisRecord envEx depthv pgnv fens))] :=
  C3_theorem envEx (some [("pgn", J.str "1. e4")])
    (analyze_pgn envEx true (some [("pgn", J.str "1. e4")])).1
    (J.obj [("status", J.str "success"), ("analysis", recEx)])
    (by
      have h2 : (analyze_pgn envEx true (some [("pgn", J.str "1. e4")])).2 =
          Resp.ok (J.obj [("status", J.str "success"), ("analysis", recEx)]) := by
        simp [analyze_pgn, envEx, gameE4, pgn_to_fen_list, walkFens, dictGet, isinstance_int,
          pyIntVal, save_analysis_to_file, savePath, MAX_DEPTH, read_gameEx, topMovesEx,
          analysisRecord, positionsOf, loopEvents, recEx, ANALYSES_FOLDER]
      rw [← h2])

/-- C4 (counterexample): on a request whose PGN expands to the empty position
list, the engine depth has already been set: the trace is
`[set_depth 15, expand]`, so a `set_depth` engine call does occur before the
invalid-input failure, contradicting the claimed expand-before-set_depth
order. -/
theorem C4_counterexample :
    analyze_pgn envEx true (some [("pgn", J.str "zzz")]) =
      ([Event.setDepth (J.int 15), Event.expandPgn (J.str "zzz")],
       Resp.err 400 "No valid positions found in PGN.") ∧
    Event.setDepth (J.int 15) ∈ (analyze_pgn envEx true (some [("pgn", J.str "zzz")])).1 := by
  have h := analyze_empty_run envEx [("pgn", J.str "zzz")] "zzz" (J.int 15) rfl rfl rfl
    (by decide) (by simp [pgn_to_fen_list, envEx, read_gameEx])
  exact ⟨h, by rw [h]; simp⟩

/-- C4 (amended): when the expansion comes back empty, `analyze` fails with
the invalid-input 400 having performed exactly the `set_depth` engine call and
the expander invocation — the depth is set before the PGN is expanded, and no
`set_fen_position` or `get_top_moves` call occurs. -/
theorem C4_theorem (env : Env) (data : List (String × J)) (s : String) (depth : J)
    (hp : dictGet data "pgn" = some (J.str s))
    (hdep : (dictGet data "depth").getD (J.int MAX_DEPTH) = depth)
    (hint : isinstance_int depth = true) (hpos : 0 < pyIntVal depth)
    (hfens : pgn_to_fen_list env.read_game (J.str s) = []) :
    analyze_pgn env true (some data) =
      ([Event.setDepth depth, Event.expandPgn (J.str s)],
       Resp.err 400 "No valid positions found in PGN.") :=
  analyze_empty_run env data s depth hp hdep hint hpos hfens

/-- C4 (witness): the amended statement evaluated on a concrete unparsable
PGN. -/
theorem C4_witness :
    analyze_pgn envEx true (some [("pgn", J.str "xx")]) =
      ([Event.setDepth (J.int 15), Event.expandPgn (J.str "xx")],
       Resp.err 400 "No valid positions found in PGN.") :=
  C4_theorem envEx [("pgn", J.str "xx")] "xx" (J.int 15) rfl rfl rfl (by decide)
    (by simp [pgn_to_fen_list, envEx, read_gameEx])

/-- C5 (counterexample): the JSON value `true` is not an integer in the JSON
sense, yet a request with `depth: true` is not rejected: Python treats `bool`
as a subclass of `int`, `True` passes the `isinstance(depth, int)` check as 1,
and the analysis succeeds with a 200. -/
theorem C5_counterexample :
    jsonIsInt (J.bool true) = false ∧ isinstance_int (J.bool true) = true ∧
    (analyze_pgn envEx true
      (some [("pgn", J.str "1. e4"), ("depth", J.bool true)])).2.code = 200 := by
  refine ⟨rfl, rfl, ?_⟩
  simp [analyze_pgn, envEx, gameE4, pgn_to_fen_list, walkFens, dictGet, isinstance_int,
    pyIntVal, save_analysis_to_file, savePath, MAX_DEPTH, read_gameEx, topMovesEx,
    analysisRecord, positionsOf, loopEvents, ANALYSES_FOLDER, Resp.code]

/-- C5 (amended): a present `depth` that fails Python's integer check
(`isinstance(depth, int)`, under which booleans count as integers: `true` acts
as 1 and is accepted, `false` as 0 and is rejected) or is non-positive makes
`analyze` return the 400 invalid-depth error with no engine interaction,
regardless of the `pgn` value. -/
theorem C5_theorem (env : Env) (data : List (String × J)) (depth pv : J)
    (hp : dictGet data "pgn" = some pv) (hd : dictGet data "depth" = some depth)
    (hbad : isinstance_int depth = false ∨ pyIntVal depth ≤ 0) :
    analyze_pgn env true (some data) =
      ([], Resp.err 400 "Invalid \x27depth\x27 value. It must be a positive integer.") :=
  analyze_depth_invalid env data depth pv hp hd hbad

/-- C5 (witness): the amended statement evaluated on a string-valued depth. -/
theorem C5_witness :
    analyze_pgn envEx true (some [("pgn", J.str "game"), ("depth", J.str "deep")]) =
      ([], Resp.err 400 "Invalid \x27depth\x27 value. It must be a positive integer.") :=
  C5_theorem envEx [("pgn", J.str "game"), ("depth", J.str "deep")]
    (J.str "deep") (J.str "game") rfl rfl (Or.inl rfl)

/-- C6: a PGN string on which the external parser returns `None` (as it does
for an empty input) is rejected by `analyze` with a 400 invalid-input
response — the parse failure is caught inside the expander, surfaces as the
empty position list, and never becomes a 500. -/
theorem C6_theorem (env : Env) (data : List (String × J)) (s : String)
    (hp : dictGet data "pgn" = some (J.str s)) (hparse : env.read_game s = none) :
    (analyze_pgn env true (some data)).2.code = 400 := by
  have hfens : pgn_to_fen_list env.read_game (J.str s) = [] := by
    simp [pgn_to_fen_list, hparse]
  by_cases hv : isinstance_int ((dictGet data "depth").getD (J.int MAX_DEPTH)) = true ∧
      0 < pyIntVal ((dictGet data "depth").getD (J.int MAX_DEPTH))
  · rw [analyze_empty_run env data s _ hp rfl hv.1 hv.2 hfens]
    rfl
  · cases hd : dictGet data "depth" with
    | none =>
      exfalso
      apply hv
      rw [hd]
      exact ⟨rfl, by decide⟩
    | some d =>
      have hbad : isinstance_int d = false ∨ pyIntVal d ≤ 0 := by
        rw [hd] at hv
        simp only [Option.getD_some] at hv
        by_cases hbool : isinstance_int d = true
        · right
          by_contra hb
          push_neg at hb
          exact hv ⟨hbool, by omega⟩
        · left
          rw [Bool.not_eq_true] at hbool
          exact hbool
      rw [analyze_depth_invalid env data d (J.str s) hp hd hbad]
      rfl

/-- C6 (witness): the empty PGN string evaluated concretely. -/
theorem C6_witness : (analyze_pgn envEx true (some [("pgn", J.str "")])).2.code = 400 :=
  C6_theorem envEx [("pgn", J.str "")] "" rfl rfl

/-- C7: when engine initialization failed at startup (the module-level
`stockfish` handle is `None`, a value fixed for the process lifetime), every
`analyze` call — whatever the body — returns the 500 engine-unavailable error
with an empty event trace: no expander invocation and no engine call occurs. -/
theorem C7_theorem (env : Env) (body : Option (List (String × J))) :
    analyze_pgn env false body =
      ([], Resp.err 500 "Stockfish engine is not initialized.") := rfl

/-- C8: the persistence writer returns the storage path exactly when the write
succeeds and `None` when it fails, and once the analysis loop has completed
the only condition that turns an otherwise successful request into an error is
that write failure, surfaced as the 500 save-failure response. -/
theorem C8_theorem (env : Env) (data : List (String × J)) (s : String) (depth : J)
    (hp : dictGet data "pgn" = some (J.str s))
    (hdep : (dictGet data "depth").getD (J.int MAX_DEPTH) = depth)
    (hint : isinstance_int depth = true) (hpos : 0 < pyIntVal depth)
    (hfens : pgn_to_fen_list env.read_game (J.str s) ≠ []) :
    (env.writeOk = true → save_analysis_to_file env = some (savePath env) ∧
      (analyze_pgn env true (some data)).2 = Resp.ok (J.obj [("status", J.str "success"),
        ("analysis", analysisRecord env depth (J.str s)
          (pgn_to_fen_list env.read_game (J.str s)))])) ∧
    (env.writeOk = false → save_analysis_to_file env = none ∧
      (analyze_pgn env true (some data)).2 =
        Resp.err 500 "Failed to save analysis results.") := by
  rw [analyze_success_run env data s depth hp hdep hint hpos hfens]
  constructor
  · intro hw
    rw [save_analysis_to_file, if_pos hw]
    simp [hw]
  · intro hw
    rw [save_analysis_to_file, if_neg (by simp [hw])]
    simp [hw]

/-- C8 (witness): the write-failure side evaluated concretely. -/
theorem C8_witness :
    save_analysis_to_file envExNoWrite = none ∧
    (analyze_pgn envExNoWrite true (some [("pgn", J.str "1. e4")])).2 =
      Resp.err 500 "Failed to save analysis results." :=
  (C8_theorem envExNoWrite [("pgn", J.str "1. e4")] "1. e4" (J.int 15) rfl rfl rfl (by decide)
    (by simp [pgn_to_fen_list, envExNoWrite, read_gameEx, gameE4, walkFens])).2 rfl

/-- C9: for every record carried by a successful analysis response, writing it
with `json.dump(.., indent=4)` and parsing the written text back with
`json.load` yields the record unchanged — the write-then-read round trip is
the identity (proved via `loads_dumps`, which covers every JSON value). -/
theorem C9_theorem (env : Env) (body : Option (List (String × J))) (r : J)
    (_h : (analyze_pgn env true body).2 =
      Resp.ok (J.obj [("status", J.str "success"), ("analysis", r)])) :
    loads (dumps r) = some r :=
  loads_dumps r

/-- C9 (witness): round trip of the concrete record of a successful run. -/
theorem C9_witness : loads (dumps recEx) = some recEx :=
  C9_theorem envEx (some [("pgn", J.str "1. e4")]) recEx
    (by
      simp [analyze_pgn, envEx, gameE4, pgn_to_fen_list, walkFens, dictGet, isinstance_int,
        pyIntVal, save_analysis_to_file, savePath, MAX_DEPTH, read_gameEx, topMovesEx,
        analysisRecord, positionsOf, loopEvents, recEx, ANALYSES_FOLDER])

/-- C10: every 200 response carries a record `r` such that the last external
action before returning was writing exactly `dumps r` — the indent-4 JSON
rendering of that same record — to the storage path, whose construction
succeeded; a success response therefore implies the identical record already
sits in storage. -/
theorem C10_theorem (env : Env) (body : Option (List (String × J)))
    (tr : List Event) (b : J)
    (h : analyze_pgn env true body = (tr, Resp.ok b)) :
    ∃ r pre, b = J.obj [("status", J.str "success"), ("analysis", r)] ∧
      tr = pre ++ [Event.writeFile (savePath env) (dumps r)] ∧
      save_analysis_to_file env = some (savePath env) := by
  obtain ⟨data, s, depth, _, _, _, _, _, _, hw, hb, htr⟩ := analyze_ok_inv env body tr b h
  refine ⟨analysisRecord env depth (J.str s) (pgn_to_fen_list env.read_game (J.str s)),
    [Event.setDepth depth, Event.expandPgn (J.str s)] ++
      loopEvents (pgn_to_fen_list env.read_game (J.str s)),
    hb, htr, ?_⟩
  rw [save_analysis_to_file, if_pos hw]

/-- C10 (witness): the concrete successful run, with the response record and
the written document tied together. -/
theorem C10_witness :
    ∃ r pre,
      J.obj [("status", J.str "success"), ("analysis", recEx)] =
        J.obj [("status", J.str "success"), ("analysis", r)] ∧
      (analyze_pgn envEx true (some [("pgn", J.str "1. e4")])).1 =
        pre ++ [Event.writeFile (savePath envEx) (dumps r)] ∧
      save_analysis_to_file envEx = some (savePath envEx) :=
  C10_theorem envEx (some [("pgn", J.str "1. e4")])
    (analyze_pgn envEx true (some [("pgn", J.str "1. e4")])).1
    (J.obj [("status", J.str "success"), ("analysis", recEx)])
    (by
      have h2 : (analyze_pgn envEx true (some [("pgn", J.str "1. e4")])).2 =
          Resp.ok (J.obj [("status", J.str "success"), ("analysis", recEx)]) := by
        simp [analyze_pgn, envEx, gameE4, pgn_to_fen_list, walkFens, dictGet, isinstance_int,
          pyIntVal, save_analysis_to_file, savePath, MAX_DEPTH, read_gameEx, topMovesEx,
          analysisRecord, positionsOf, loopEvents, recEx, ANALYSES_FOLDER]
      rw [← h2])
